import Mathlib

/-!
# Verification of the go-vcr cassette store and request hasher

Shallow embedding of the `cassette` package (files `cassette.go` and
`hasher.go`): the recorded request/response data model, the default
request-fingerprinting algorithm, and the cassette operations
`AddInteraction`, `GetInteraction`, `Load` and `Save`.

Modelling conventions:
* Go maps `http.Header` / `url.Values` (string -> []string) are modelled as
  association lists `List (String × List String)`; a Go map has unique keys
  and nondeterministic iteration order, and every modelled consumer either
  sorts the keys before use or only performs per-key lookup/append, so the
  list model is order-faithful for everything proved here.
* Go byte strings are modelled as Lean `String`s; the cassette contents are
  ASCII in all cassettes this development reasons about, where the two agree.
* `io.ReadCloser` request bodies are modelled by an explicit `Body` state:
  a Go `nil` body, the sentinel `http.NoBody`, or a stream holding the bytes
  still readable.  Reading a stream to EOF leaves an empty stream behind.
* The SHA-256 hex rendering at the end of the hasher is a fixed pure
  function of the accumulated input bytes; it is modelled by the accumulated
  input itself (distinct inputs are modelled as distinct digests).
* File-system and YAML-encoding side effects are modelled by an explicit
  `CassetteFile` value holding exactly the persisted fields, with the
  encoder/decoder treated as an exact inverse pair (as the specification
  directs for round-trip properties).
-/

namespace GoVcr

/-- `url.Values` / `http.Header`: a string-keyed multimap, modelled as an
association list of key/values pairs. -/
abbrev Values := List (String × List String)

/-- `http.Header` is the same shape as `url.Values`. -/
abbrev Header := Values

/-- ASCII lower-casing of one character, as Go performs on header bytes
(`c += 'a' - 'A'` when `'A' <= c <= 'Z'`). -/
def asciiToLower (ch : Char) : Char :=
  if 65 ≤ ch.toNat ∧ ch.toNat ≤ 90 then Char.ofNat (ch.toNat + 32) else ch

/-- ASCII upper-casing of one character, as Go performs on header bytes
(`c -= 'a' - 'A'` when `'a' <= c <= 'z'`). -/
def asciiToUpper (ch : Char) : Char :=
  if 97 ≤ ch.toNat ∧ ch.toNat ≤ 122 then Char.ofNat (ch.toNat - 32) else ch

/-- ASCII lower-casing of a string. -/
def lowerStr (s : String) : String := String.mk (s.data.map asciiToLower)

/-- `validHeaderFieldByte` of net/textproto: the HTTP token characters —
letters, digits, and the punctuation set written here by character code
(33 `!`, 35 `#`, 36 `$`, 37 `%`, 38 `&`, 39 apostrophe, 42 `*`, 43 `+`,
45 `-`, 46 `.`, 94 `^`, 95 `_`, 96 backquote, 124 `|`, 126 `~`). -/
def isTokenChar (ch : Char) : Bool :=
  let n := ch.toNat
  (65 ≤ n && n ≤ 90) || (97 ≤ n && n ≤ 122) || (48 ≤ n && n ≤ 57) ||
    [33, 35, 36, 37, 38, 39, 42, 43, 45, 46, 94, 95, 96, 124, 126].contains n

/-- The canonicalization loop of `textproto.CanonicalMIMEHeaderKey`: an
upper-case flag starts true and is true exactly after a hyphen; flagged
characters are upper-cased, the rest lower-cased. -/
def canonChars : Bool → List Char → List Char
  | _, [] => []
  | up, ch :: rest =>
    let ch2 := if up then asciiToUpper ch else asciiToLower ch
    ch2 :: canonChars (ch2 == '-') rest

/-- `http.CanonicalHeaderKey` (via `textproto.CanonicalMIMEHeaderKey`): if any
byte is not a valid header-field byte the key is returned unchanged,
otherwise it is case-canonicalized (capital after start/hyphen). -/
def canonicalHeaderKey (s : String) : String :=
  if s.data.all isTokenChar then String.mk (canonChars true s.data) else s

/-- Insertion of a string into a sorted list, the helper for the model of
`sort.Strings`. -/
def insertSorted (s : String) : List String → List String
  | [] => [s]
  | t :: rest => if s ≤ t then s :: t :: rest else t :: insertSorted s rest

/-- Model of `sort.Strings`: lexicographic (byte-wise, which for UTF-8 agrees
with code-point-wise) ascending sort.  Implemented by insertion sort; Go's
sort is unstable, but equal strings are indistinguishable, so any sorting
algorithm denotes the same function. -/
def sortStrings (l : List String) : List String := l.foldr insertSorted []

/-- Exact-key lookup in a header/values multimap (`h[k]` on the Go map);
a missing key yields the empty value list (Go `nil`). -/
def headerValues (h : Header) (k : String) : List String :=
  ((h.find? (fun p => p.1 == k)).map Prod.snd).getD []

/-- `serializeHeaders` of hasher.go: build the ignore set by canonical name,
keep the non-ignored keys, sort them, render each as `name:v1,v2,…` with its
values sorted, and join the entries with `;`. -/
def serializeHeaders (h : Header) (ignore : List String) : String :=
  if h.isEmpty then "" else
  let headersToIgnore := ignore.map canonicalHeaderKey
  let keys := (h.map Prod.fst).filter
    (fun k => !headersToIgnore.contains (canonicalHeaderKey k))
  let keys := sortStrings keys
  String.intercalate ";"
    (keys.map (fun k => k ++ ":" ++ String.intercalate "," (sortStrings (headerValues h k))))

/-- `serializeTransferEncoding` of hasher.go: sort the values (on a copy) and
join with `,`; the empty list serializes to the empty string. -/
def serializeTransferEncoding (te : List String) : String :=
  if te.isEmpty then "" else
  String.intercalate "," (sortStrings te)

/-- Written from the specification's words (§4.1): drop any header present in
the caller-supplied ignore-list, matching names case-insensitively; sort the
remaining names lexicographically; for each name sort its values
lexicographically and join with the fixed separator `,`; join the entries
(as `name:values`) with the fixed separator `;`. -/
def serializeHeadersSpec (h : Header) (ignore : List String) : String :=
  let keys := (h.map Prod.fst).filter
    (fun k => !ignore.any (fun n => lowerStr n == lowerStr k))
  let keys := sortStrings keys
  String.intercalate ";"
    (keys.map (fun k => k ++ ":" ++ String.intercalate "," (sortStrings (headerValues h k))))

/-- Written from the specification's words (§4.1): transfer-encoding values
are sorted before being joined with the fixed separator. -/
def serializeTransferEncodingSpec (te : List String) : String :=
  String.intercalate "," (sortStrings te)

/-- The state of an `io.ReadCloser` request body: Go `nil`, the sentinel
`http.NoBody`, or a live stream whose remaining readable bytes are `data`. -/
inductive Body
  | nil
  | noBody
  | stream (data : String)
deriving DecidableEq, Repr, Inhabited

/-- The bytes a downstream reader can still obtain from a body. -/
def Body.readable : Body → String
  | .nil => ""
  | .noBody => ""
  | .stream s => s

/-- `io.ReadAll` on a body that is known non-nil: returns the remaining bytes
and leaves the reader at EOF (an empty stream).  `http.NoBody` reads as
empty and stays `http.NoBody`. -/
def Body.readAll : Body → String × Body
  | .nil => ("", .nil)
  | .noBody => ("", .noBody)
  | .stream s => (s, .stream "")

/-- The live `http.Request` as the hasher and the store see it.  `url` is the
string rendering of `r.URL` (`url.Parse` followed by `URL.String()` is the
identity on the canonical URLs this development uses, and the model keeps
the string form).  `postForm`/`form` are `nil`-able Go maps, hence
`Option Values`. -/
structure HTTPRequest where
  method : String
  host : String
  url : String
  proto : String
  protoMajor : Nat
  protoMinor : Nat
  header : Header
  body : Body
  contentLength : Int
  trailer : Header
  transferEncoding : List String
  remoteAddr : String
  requestURI : String
  postForm : Option Values
  form : Option Values
deriving DecidableEq, Repr, Inhabited

/-- `Header.Get` of net/http: canonicalize the key, look it up exactly, and
return the first value (empty string when absent). -/
def headerGetFirst (h : Header) (k : String) : String :=
  ((headerValues h (canonicalHeaderKey k)).headD "")

/-- Hex digit value, for percent-decoding (`ishex`/`unhex` of net/url). -/
def unhex (c : Char) : Option Nat :=
  let n := c.toNat
  if 48 ≤ n ∧ n ≤ 57 then some (n - 48)
  else if 97 ≤ n ∧ n ≤ 102 then some (n - 97 + 10)
  else if 65 ≤ n ∧ n ≤ 70 then some (n - 65 + 10)
  else none

/-- The character-level loop of `url.QueryUnescape`: `%XX` decodes to the
byte `XX` (modelled as the code point `XX`; agrees with Go on ASCII),
`+` decodes to a space, a malformed escape is an error. -/
def unescapeChars : List Char → Except String (List Char)
  | [] => .ok []
  | '%' :: a :: b :: rest =>
    match unhex a, unhex b with
    | some x, some y => (unescapeChars rest).map (fun l => Char.ofNat (16 * x + y) :: l)
    | _, _ => .error "invalid URL escape"
  | '%' :: _ => .error "invalid URL escape"
  | '+' :: rest => (unescapeChars rest).map (fun l => ' ' :: l)
  | c :: rest => (unescapeChars rest).map (fun l => c :: l)

/-- `url.QueryUnescape`. -/
def queryUnescape (s : String) : Except String String :=
  (unescapeChars s.data).map String.mk

/-- Splitting a character list on a one-character separator, structurally
(the `strings.Cut` loop of Go; also `String.splitOn` for one-character
separators, which is all this package uses).  The empty input yields one
empty segment, as in Go and in `String.splitOn`. -/
def splitOnChar (sep : Char) : List Char → List (List Char)
  | [] => [[]]
  | c :: rest =>
    if c = sep then [] :: splitOnChar sep rest
    else
      match splitOnChar sep rest with
      | [] => [[c]]
      | seg :: ss => (c :: seg) :: ss

/-- String-level wrapper for `splitOnChar`. -/
def splitStr (sep : Char) (s : String) : List String :=
  (splitOnChar sep s.data).map String.mk

/-- The whitespace set of `strings.TrimSpace`, restricted to ASCII (space,
tab, newline, vertical tab, form feed, carriage return). -/
def isSpaceChar (c : Char) : Bool :=
  c = ' ' || c.toNat = 9 || c.toNat = 10 || c.toNat = 11 || c.toNat = 12 || c.toNat = 13

/-- `strings.TrimSpace`, structurally. -/
def trimStr (s : String) : String :=
  String.mk ((((s.data.dropWhile isSpaceChar).reverse).dropWhile isSpaceChar).reverse)

/-- Append one value to a key's bucket in a values multimap, creating the
bucket if absent (`m[key] = append(m[key], value)` on a Go map). -/
def appendValue (m : Values) (k : String) (v : String) : Values :=
  match m with
  | [] => [(k, [v])]
  | (k2, l) :: rest =>
    if k2 = k then (k2, l ++ [v]) :: rest else (k2, l) :: appendValue rest k v

/-- `strings.Cut` at the first `=`, as used on each query segment. -/
def cutEq (s : String) : String × String :=
  match splitStr '=' s with
  | [] => (s, "")
  | [k] => (k, "")
  | k :: rest => (k, String.intercalate "=" rest)

/-- One iteration of the `url.ParseQuery` loop over a `&`-separated segment:
skip empty segments, reject semicolons (recording the error but continuing),
percent-decode key and value (an undecodable pair is skipped, its error
recorded only if none is pending), and append to the map. -/
def parseQuerySeg (acc : Values × Option String) (seg : String) : Values × Option String :=
  let (m, err) := acc
  if seg.data.contains ';' then (m, some "invalid semicolon separator in query")
  else if seg = "" then (m, err)
  else
    let (key, value) := cutEq seg
    match queryUnescape key with
    | .error e1 => (m, if err = none then some e1 else err)
    | .ok key =>
      match queryUnescape value with
      | .error e1 => (m, if err = none then some e1 else err)
      | .ok value => (appendValue m key value, err)

/-- `url.ParseQuery`: the repeated `strings.Cut` on `&` visits exactly the
`&`-separated segments in order, accumulating a (possibly partial) map and
the first/last recorded error as the Go loop does.  Both the map and the
error are returned, as in Go. -/
def parseQueryGo (s : String) : Values × Option String :=
  (splitStr '&' s).foldl parseQuerySeg ([], none)

/-- `mime.ParseMediaType`, restricted to the shape the store meets: the
media type is the part before any `;`, surrounding-space-trimmed and
lower-cased.  (Malformed parameter syntax, which makes Go return an error,
is not exercised by any cassette operation modelled here.) -/
def mediaTypeOf (ct : String) : String :=
  lowerStr (trimStr ((splitStr ';' ct).headD ""))

/-- The `RawQuery` component of the modelled URL string: everything after
the first `?` (the URLs in this development carry no fragment). -/
def rawQueryOf (url : String) : String :=
  match splitStr '?' url with
  | [] => ""
  | [_] => ""
  | _ :: rest => String.intercalate "?" rest

/-- `parsePostForm` of net/http (documented behavior: for a form-encoded
body it reads the request body — consuming the reader — and parses it as a
query string).  Returns the parsed values (Go returns the partial map even
alongside an error), the body state the request is left with, and the error. -/
def parsePostForm (r : HTTPRequest) : Option Values × Body × Option String :=
  if r.body = Body.nil then (none, r.body, some "missing form body")
  else
    let ct := headerGetFirst r.header "Content-Type"
    let ct := if ct = "" then "application/x-www-form-urlencoded" else mediaTypeOf ct
    if ct = "application/x-www-form-urlencoded" then
      let (b, body2) := r.body.readAll
      let (vs, err) := parseQueryGo b
      (some vs, body2, err)
    else
      (none, r.body, none)

/-- `copyValues` of net/http: append every value list of `src` into `dst`
under the same key (iterating `src` in its list order; no modelled consumer
inspects the merged `Form`, so map-iteration order is immaterial). -/
def copyValues (dst src : Values) : Values :=
  src.foldl (fun d kv => kv.2.foldl (fun d v => appendValue d kv.1 v) d) dst

/-- `Request.ParseForm` of net/http, as a state transformer plus error:
when `PostForm` is nil and the method is POST/PUT/PATCH the body is parsed
(and, for form-encoded content, consumed) into `PostForm`; a nil result is
replaced by an empty map; when `Form` is nil it is filled from `PostForm`
plus the URL's query parameters (a query parse error is kept only when no
earlier error is pending). -/
def parseFormGo (r : HTTPRequest) : HTTPRequest × Option String :=
  let (r, err) :=
    if r.postForm = none then
      let (pf, body2, e) :=
        if r.method = "POST" ∨ r.method = "PUT" ∨ r.method = "PATCH" then
          parsePostForm r
        else (none, r.body, none)
      let r := { r with body := body2, postForm := pf }
      let r := if r.postForm = none then { r with postForm := some [] } else r
      (r, e)
    else (r, none)
  if r.form = none then
    let r :=
      if (r.postForm.getD []).length > 0 then
        { r with form := some (copyValues [] (r.postForm.getD [])) }
      else r
    let (newValues, e2) := parseQueryGo (rawQueryOf r.url)
    let err := if err = none then e2 else err
    let r :=
      match r.form with
      | none => { r with form := some newValues }
      | some f => { r with form := some (copyValues f newValues) }
    (r, err)
  else (r, err)

/-- `RequestHasher` of hasher.go.  The SHA-256 state is modelled by the
exact byte stream written into it: `Add` writes the delimiter `::` before
every part but the first; the final hex digest, a fixed pure function of
that stream, is modelled by the stream itself. -/
structure RequestHasher where
  parts : List String
deriving DecidableEq, Repr

/-- `NewRequestHasher`. -/
def RequestHasher.new : RequestHasher := ⟨[]⟩

/-- `RequestHasher.Add`. -/
def RequestHasher.add (h : RequestHasher) (part : String) : RequestHasher :=
  ⟨h.parts ++ [part]⟩

/-- `RequestHasher.AddInt` (`strconv.Itoa`). -/
def RequestHasher.addInt (h : RequestHasher) (n : Int) : RequestHasher :=
  h.add (toString n)

/-- `RequestHasher.Hash`: the digest of the accumulated stream (see
`RequestHasher`). -/
def RequestHasher.hashVal (h : RequestHasher) : String :=
  String.intercalate "::" h.parts

/-- `defaultInteractionRequestHasher` of hasher.go: read and restore a
non-nil, non-`NoBody` body; run `ParseForm` for POST/PUT/PATCH (failing the
hash on its error); then digest the fixed field sequence.  Returns the
digest together with the request state the Go function leaves behind. -/
def defaultInteractionRequestHasher (r : HTTPRequest) (ignoreHeaders : List String) :
    Except String (String × HTTPRequest) :=
  let (bodyBytes, r) :=
    match r.body with
    | .stream s => (s, { r with body := Body.stream s })
    | b => ("", { r with body := b })
  let step :=
    if r.method = "POST" ∨ r.method = "PUT" ∨ r.method = "PATCH" then
      parseFormGo r
    else (r, none)
  match step with
  | (_, some e) => .error e
  | (r, none) =>
    let h := RequestHasher.new
    let h := h.add r.method
    let h := h.add r.host
    let h := h.add r.url
    let h := h.add r.proto
    let h := h.addInt r.protoMajor
    let h := h.addInt r.protoMinor
    let h := h.add (serializeHeaders r.header ignoreHeaders)
    let h := h.add bodyBytes
    let h := h.addInt r.contentLength
    let h := h.add (serializeHeaders r.trailer [])
    let h := h.add (serializeTransferEncoding r.transferEncoding)
    let h := h.add r.remoteAddr
    let h := h.add r.requestURI
    .ok (h.hashVal, r)

/-- The default matcher's `Hash` (`defaultMatcher.Hash` with an empty
ignore list): the digest of `defaultInteractionRequestHasher`.  The
`RequestMatcher` interface consumes only the digest, so the hasher's
request-state effect is dropped here (inside `GetInteraction` the caller
re-restores the body from its own cache, making the drop unobservable). -/
def defaultMatcherHash (r : HTTPRequest) : Except String String :=
  (defaultInteractionRequestHasher r []).map Prod.fst

/-- `cassette.Request`: a recorded client request. -/
structure Request where
  proto : String
  protoMajor : Nat
  protoMinor : Nat
  contentLength : Int
  transferEncoding : List String
  trailer : Header
  host : String
  remoteAddr : String
  requestURI : String
  body : String
  form : Option Values
  headers : Header
  url : String
  method : String
deriving DecidableEq, Repr, Inhabited

/-- `cassette.Response`: a recorded server response (`duration` in
nanoseconds, the unit of `time.Duration`). -/
structure Response where
  proto : String
  protoMajor : Nat
  protoMinor : Nat
  transferEncoding : List String
  trailer : Header
  contentLength : Int
  uncompressed : Bool
  body : String
  headers : Header
  status : String
  code : Nat
  duration : Int
deriving DecidableEq, Repr, Inhabited

/-- `cassette.Interaction`: a recorded request/response pair with its
bookkeeping fields (`replayed` is the unexported flag). -/
structure Interaction where
  id : Nat
  hash : String
  request : Request
  response : Response
  discardOnSave : Bool
  replayed : Bool
deriving DecidableEq, Repr, Inhabited

/-- `url.Parse` followed by `URL.String()`, at the fidelity the store
needs: Go rejects a URL containing an ASCII control character and
`String()` is the identity on the canonical URL strings used here. -/
def urlParse (s : String) : Except String String :=
  if s.data.any (fun ch => ch.toNat < 32 ∨ ch.toNat = 127) then
    .error ("parse " ++ s ++ ": net/url: invalid control character in URL")
  else .ok s

/-- `toHTTPRequest` of cassette.go: convert a recorded request into a live
`http.Request` (parsing the URL, wrapping the body text in a fresh reader,
installing the recorded form under `Form`, leaving `PostForm` nil). -/
def toHTTPRequest (req : Request) : Except String HTTPRequest :=
  match urlParse req.url with
  | .error e => .error ("failed to parse request URL " ++ req.url ++ ": " ++ e)
  | .ok u =>
    .ok { method := req.method
          host := req.host
          url := u
          proto := req.proto
          protoMajor := req.protoMajor
          protoMinor := req.protoMinor
          header := req.headers
          body := Body.stream req.body
          contentLength := req.contentLength
          trailer := req.trailer
          transferEncoding := req.transferEncoding
          remoteAddr := req.remoteAddr
          requestURI := req.requestURI
          postForm := none
          form := req.form }

/-- `Interaction.GetHTTPRequest`. -/
def Interaction.getHTTPRequest (i : Interaction) : Except String HTTPRequest :=
  toHTTPRequest i.request

/-- The errors a cassette operation can surface, each distinguished
sentinel/wrapped error of cassette.go as its own constructor. -/
inductive CassetteErr
  | interactionNotFound
  | unsupportedFormat (found : Nat)
  | noMatcher
  | hashError (msg : String)
  | buildIndexError (msg : String)
deriving DecidableEq, Repr

/-- The supported cassette version (`CassetteFormatVersion`). -/
def CassetteFormatVersion : Nat := 2

/-- `cassette.Cassette`.  The `RequestMatcher` interface value is modelled
as an optional hash function on live requests (`nil` interface ↦ `none`);
the mutex only serializes the operations and has no value content. -/
structure Cassette where
  name : String
  version : Nat
  interactions : List Interaction
  replayableInteractions : Bool
  compressionEnabled : Bool
  matcher : Option (HTTPRequest → Except String String)
  isNew : Bool
  nextInteractionId : Nat
  hashIndex : List (String × List Nat)

/-- Bucket lookup in the hash index (`c.hashIndex[hash]` with its `ok`
bit: `none` models a key the Go map does not contain). -/
def lookupIdx (m : List (String × List Nat)) (k : String) : Option (List Nat) :=
  (m.find? (fun p => p.1 == k)).map Prod.snd

/-- `m[k] = append(m[k], v)` on the index map: append to the existing
bucket, or create a one-element bucket for a fresh key. -/
def appendIdx (m : List (String × List Nat)) (k : String) (v : Nat) :
    List (String × List Nat) :=
  match m with
  | [] => [(k, [v])]
  | (k2, l) :: rest =>
    if k2 = k then (k2, l ++ [v]) :: rest else (k2, l) :: appendIdx rest k v

/-- `cassette.New`. -/
def Cassette.New (name : String) : Cassette :=
  { name := name
    version := CassetteFormatVersion
    interactions := []
    matcher := some defaultMatcherHash
    replayableInteractions := false
    compressionEnabled := false
    isNew := true
    nextInteractionId := 0
    hashIndex := [] }

/-- `Cassette.AddInteraction`.  Go mutates the passed interaction and the
cassette in place and returns only an error; the model returns the mutated
cassette, the mutated interaction, and the error, so that the states left
behind by a failing call remain observable. -/
def Cassette.addInteraction (c : Cassette) (i : Interaction) :
    Cassette × Interaction × Option String :=
  let i := { i with id := c.nextInteractionId }
  let c := { c with nextInteractionId := c.nextInteractionId + 1 }
  match c.matcher with
  | none => ({ c with interactions := c.interactions ++ [i] }, i, none)
  | some m =>
    match i.getHTTPRequest with
    | .error e => (c, i, some e)
    | .ok req =>
      match m req with
      | .error e => (c, i, some e)
      | .ok hv =>
        let i := { i with hash := hv }
        ({ c with hashIndex := appendIdx c.hashIndex hv c.interactions.length
                  interactions := c.interactions ++ [i] }, i, none)

/-- The body-caching prologue of `GetInteraction`: a nil body is replaced by
`http.NoBody`, the body is read in full (the model's read cannot fail), and
the request's body is replaced by a fresh reader over the cached bytes.
Returns the cached bytes and the updated request. -/
def cacheBody (r : HTTPRequest) : String × HTTPRequest :=
  let r := if r.body = Body.nil then { r with body := Body.noBody } else r
  let (bodyBytes, _) := r.body.readAll
  (bodyBytes, { r with body := Body.stream bodyBytes })

/-- In-place `interaction.replayed = true` on the slice entry at `idx`. -/
def Cassette.markReplayed (c : Cassette) (idx : Nat) : Cassette :=
  { c with interactions :=
      c.interactions.set idx { c.interactions.getD idx default with replayed := true } }

/-- Outcome of the bucket scan inside `GetInteraction`: an entry was taken
(with the cassette state after its `replayed` flag was set), or the loop ran
out with the final value of `lastReplayedIdx` (`none` models the initial
`-1`). -/
inductive LoopResult
  | found (c : Cassette) (idx : Nat)
  | exhausted (lastReplayedIdx : Option Nat)

/-- The `for _, idx := range interactionIndices` loop of `GetInteraction`:
skip an already-replayed entry when replayable interactions are disabled
(remembering it in `lastReplayedIdx`), otherwise mark the entry replayed and
take it.  Out-of-range positions (a Go panic; unreachable while the index is
consistent) read as the default interaction. -/
def Cassette.replayLoop (c : Cassette) : List Nat → Option Nat → LoopResult
  | [], last => .exhausted last
  | idx :: rest, _ =>
    if !c.replayableInteractions && (c.interactions.getD idx default).replayed then
      c.replayLoop rest (some idx)
    else
      .found (c.markReplayed idx) idx

/-- `Cassette.overrideRecordedRequestBody`: restore the live body from the
cached bytes, run `ParseForm` discarding its error, restore the body again,
and return a copy of the interaction whose request body is the cached live
bytes and whose form is the live request's `PostForm`.  (The Go function's
error result is always nil.) -/
def Cassette.overrideRecordedRequestBody (r : HTTPRequest)
    (originalInteraction : Interaction) (bodyBytes : String) :
    HTTPRequest × Interaction :=
  let r := { r with body := Body.stream bodyBytes }
  let (r, _) := parseFormGo r
  let r := { r with body := Body.stream bodyBytes }
  let interaction :=
    { originalInteraction with
        request := { originalInteraction.request with
                       body := bodyBytes
                       form := r.postForm } }
  (r, interaction)

/-- `Cassette.GetInteraction`.  Returns the cassette state, the live
request state, and the result, mirroring the in-place mutation of both. -/
def Cassette.getInteraction (c : Cassette) (r : HTTPRequest) :
    Cassette × HTTPRequest × Except CassetteErr Interaction :=
  match c.matcher with
  | none => (c, r, .error CassetteErr.noMatcher)
  | some m =>
    let (bodyBytes, r) := cacheBody r
    match m r with
    | .error e => (c, r, .error (CassetteErr.hashError e))
    | .ok reqHash =>
      match lookupIdx c.hashIndex reqHash with
      | none => (c, r, .error CassetteErr.interactionNotFound)
      | some interactionIndices =>
        match c.replayLoop interactionIndices none with
        | .found c2 idx =>
          let (r2, ret) :=
            Cassette.overrideRecordedRequestBody r (c2.interactions.getD idx default) bodyBytes
          (c2, r2, .ok ret)
        | .exhausted (some lastReplayedIdx) =>
          let (r2, ret) :=
            Cassette.overrideRecordedRequestBody r
              (c.interactions.getD lastReplayedIdx default) bodyBytes
          (c, r2, .ok ret)
        | .exhausted none => (c, r, .error CassetteErr.interactionNotFound)

/-- The discard-filter/renumber loop of `Cassette.Save` (`nextId` starts at
the first argument, which `Save` passes as 0). -/
def renumberFrom : Nat → List Interaction → List Interaction
  | _, [] => []
  | n, i :: rest =>
    if i.discardOnSave then renumberFrom n rest
    else { i with id := n } :: renumberFrom (n + 1) rest

/-- The in-memory effect of `Cassette.Save`: filter out the interactions
flagged discard-on-save and renumber the survivors densely from zero.  (The
directory creation, YAML marshalling and file write that follow are
modelled by `Cassette.marshal`.) -/
def Cassette.save (c : Cassette) : Cassette :=
  { c with interactions := renumberFrom 0 c.interactions }

/-- The persisted fields of one interaction (`DiscardOnSave` and `replayed`
carry the `yaml:"-"` tag and are not written). -/
structure PersistedInteraction where
  id : Nat
  hash : String
  request : Request
  response : Response
deriving DecidableEq, Repr, Inhabited

/-- The YAML document of a cassette file: exactly the persisted fields
(`version`, `compression_enabled`, `interactions`), with the encoder and
decoder treated as an exact inverse pair. -/
structure CassetteFile where
  version : Nat
  compressionEnabled : Bool
  interactions : List PersistedInteraction
deriving DecidableEq, Repr, Inhabited

/-- `yaml.Marshal` on a cassette: project the persisted fields. -/
def Cassette.marshal (c : Cassette) : CassetteFile :=
  { version := c.version
    compressionEnabled := c.compressionEnabled
    interactions := c.interactions.map (fun i =>
      { id := i.id, hash := i.hash, request := i.request, response := i.response }) }

/-- `yaml.Decoder.Decode` into an existing cassette: overwrite the tagged
fields from the document; the unexported flags of each decoded interaction
start false. -/
def Cassette.decodeInto (c : Cassette) (f : CassetteFile) : Cassette :=
  { c with
      version := f.version
      compressionEnabled := f.compressionEnabled
      interactions := f.interactions.map (fun p =>
        { id := p.id, hash := p.hash, request := p.request, response := p.response
          discardOnSave := false, replayed := false }) }

/-- The `for i, interaction := range c.Interactions` loop of
`buildHashIndex`, threading the position counter, the rebuilt interaction
list (an interaction's `Hash` may be filled in), the index, and the
`upgraded` flag. -/
def buildHashIndexLoop (m : HTTPRequest → Except String String) :
    Nat → List Interaction → List Interaction → List (String × List Nat) → Bool →
    Except String (List Interaction × List (String × List Nat) × Bool)
  | _, acc, [], idxm, upgraded => .ok (acc, idxm, upgraded)
  | pos, acc, interaction :: rest, idxm, upgraded =>
    if interaction.hash = "" then
      match interaction.getHTTPRequest with
      | .error e =>
        .error ("failed to get HTTP request for interaction " ++ toString interaction.id
          ++ ": " ++ e)
      | .ok req =>
        match m req with
        | .error e =>
          .error ("failed to hash request for interaction " ++ toString interaction.id
            ++ ": " ++ e)
        | .ok hv =>
          let interaction := { interaction with hash := hv }
          buildHashIndexLoop m (pos + 1) (acc ++ [interaction]) rest
            (appendIdx idxm hv pos) true
    else
      buildHashIndexLoop m (pos + 1) (acc ++ [interaction]) rest
        (appendIdx idxm interaction.hash pos) upgraded

/-- `Cassette.buildHashIndex`: nothing happens without a matcher; otherwise
every interaction's persisted hash (recomputed, and the cassette marked
upgraded, when empty) is appended to the index under its slice position. -/
def Cassette.buildHashIndex (c : Cassette) : Except String (Cassette × Bool) :=
  match c.matcher with
  | none => .ok (c, false)
  | some m =>
    match buildHashIndexLoop m 0 [] c.interactions c.hashIndex false with
    | .error e => .error e
    | .ok (ints, idxm, upgraded) =>
      .ok ({ c with interactions := ints, hashIndex := idxm }, upgraded)

/-- `Cassette.Load`, from the point where the backing file has been opened
and its YAML document obtained (`f`): mark the cassette as not new, decode
the document over it, reject an unsupported format version, set the next
position counter, rebuild the hash index, and — when legacy hashes were
recomputed — re-save once (whose in-memory effect is `Cassette.save`; its
write error is only logged). -/
def Cassette.load (c : Cassette) (f : CassetteFile) : Except CassetteErr Cassette :=
  let c := { c with isNew := false }
  let c := c.decodeInto f
  if c.version ≠ CassetteFormatVersion then
    .error (CassetteErr.unsupportedFormat c.version)
  else
    let c := { c with nextInteractionId := c.interactions.length }
    match c.buildHashIndex with
    | .error e => .error (CassetteErr.buildIndexError e)
    | .ok (c, upgraded) => .ok (if upgraded then c.save else c)

/-- The bucket the index holds for a fingerprint, the missing-key case
reading as the empty bucket. -/
def Cassette.bucketOf (c : Cassette) (f : String) : List Nat :=
  (lookupIdx c.hashIndex f).getD []

/-- The positions of the interactions in the current slice whose
fingerprint is `f`, in ascending order. -/
def Cassette.positionsWithHash (c : Cassette) (f : String) : List Nat :=
  (List.range c.interactions.length).filter
    (fun i => (c.interactions.getD i default).hash == f)

/-- The index invariant of the specification: for every fingerprint the
index bucket is exactly the ascending list of positions currently holding
that fingerprint. -/
def Cassette.indexInvariant (c : Cassette) : Prop :=
  ∀ f, c.bucketOf f = c.positionsWithHash f

/-- Every position mentioned by the index is inside the slice. -/
def Cassette.indexInRange (c : Cassette) : Prop :=
  ∀ p ∈ c.hashIndex, ∀ i ∈ p.2, i < c.interactions.length

section Fixtures

/-- A simple injective request hash (a legitimate user-supplied
`RequestMatcher`): the request's URL string. -/
def exUrlHash : HTTPRequest → Except String String := fun r => Except.ok r.url

/-- A recorded GET request to host `a`. -/
def exReqA : Request :=
  { proto := "HTTP/1.1", protoMajor := 1, protoMinor := 1,
    contentLength := 0, transferEncoding := [], trailer := [], host := "a",
    remoteAddr := "", requestURI := "", body := "", form := none, headers := [],
    url := "http://a/", method := "GET" }

/-- A recorded GET request to host `b`. -/
def exReqB : Request := { exReqA with url := "http://b/", host := "b" }

/-- A plain 200 response. -/
def exResp : Response :=
  { proto := "HTTP/1.1", protoMajor := 1, protoMinor := 1,
    transferEncoding := [], trailer := [], contentLength := 2, uncompressed := false,
    body := "ok", headers := [], status := "200 OK", code := 200, duration := 0 }

/-- An interaction for `exReqA` whose discard-on-save flag a hook has set. -/
def exIntA : Interaction :=
  { id := 0, hash := "", request := exReqA, response := exResp,
    discardOnSave := true, replayed := false }

/-- An interaction for `exReqB`. -/
def exIntB : Interaction := { exIntA with request := exReqB, discardOnSave := false }

/-- A cassette built by the store itself: two recorded interactions, the
first flagged discard-on-save. -/
def exCassette : Cassette :=
  ((({ Cassette.New "c" with matcher := some exUrlHash }).addInteraction
      exIntA).1.addInteraction exIntB).1

/-- A live GET request to `http://a/`. -/
def exLiveA : HTTPRequest :=
  { method := "GET", host := "a", url := "http://a/", proto := "HTTP/1.1",
    protoMajor := 1, protoMinor := 1, header := [], body := Body.nil, contentLength := 0,
    trailer := [], transferEncoding := [], remoteAddr := "", requestURI := "",
    postForm := none, form := none }

/-- A cassette with two interactions sharing one fingerprint, both already
replayed (the state after two non-replayable lookups). -/
def exExhausted : Cassette :=
  let c := ((({ Cassette.New "d" with matcher := some (fun _ => Except.ok "H") }).addInteraction
      { exIntB with id := 0 }).1.addInteraction { exIntB with id := 0 }).1
  { c with interactions := c.interactions.map (fun j => { j with replayed := true }) }

/-- `exExhausted` with replayable interactions enabled and the flags
cleared on the second entry, for the replayable-lookup claims. -/
def exReplayable : Cassette :=
  { exExhausted with replayableInteractions := true }

/-- A matcher that fails on every request except `http://a/` (hash errors
are a matcher's prerogative; `defaultMatcher.Hash` itself fails for example
on an unparsable form body). -/
def exFailMatcher : HTTPRequest → Except String String :=
  fun r => if r.url = "http://a/" then Except.ok "A" else Except.error "boom"

/-- A cassette holding one successfully added interaction under
`exFailMatcher`; its next add (of `exIntB`) fails hashing. -/
def exFailCassette : Cassette :=
  (({ Cassette.New "w" with matcher := some exFailMatcher }).addInteraction
    { exIntA with discardOnSave := false }).1

/-- The failing input of the body-restoration claim: a live POST carrying a
form-encoded body. -/
def exPost : HTTPRequest :=
  { method := "POST", host := "x", url := "http://x/", proto := "HTTP/1.1",
    protoMajor := 1, protoMinor := 1,
    header := [("Content-Type", ["application/x-www-form-urlencoded"])],
    body := Body.stream "a=1", contentLength := 3, trailer := [],
    transferEncoding := [], remoteAddr := "", requestURI := "",
    postForm := none, form := none }

end Fixtures

/-! ## Helper lemmas -/

/-- The discard-filter/renumber loop enumerates the kept interactions from
`n`, overwriting each position id. -/
theorem renumberFrom_eq_enumFrom (n : Nat) (l : List Interaction) :
    renumberFrom n l =
      ((l.filter (fun i => !i.discardOnSave)).enumFrom n).map
        (fun p => { p.2 with id := p.1 }) := by
  induction l generalizing n with
  | nil => rfl
  | cons i rest ih =>
    by_cases hd : i.discardOnSave
    · simp [renumberFrom, hd, List.filter_cons, ih]
    · simp [renumberFrom, hd, List.filter_cons, List.enumFrom, ih]

/-- `getD` at the position just overwritten by `set`. -/
theorem list_getD_set_self {α : Type} [Inhabited α] (l : List α) (i : Nat) (a : α)
    (h : i < l.length) : (l.set i a).getD i default = a := by
  simp [List.getD, List.getElem?_set_self, h]

/-- `getD` at a position other than the one overwritten by `set`. -/
theorem list_getD_set_ne {α : Type} [Inhabited α] (l : List α) (i k : Nat) (a : α)
    (h : k ≠ i) : (l.set i a).getD k default = l.getD k default := by
  simp [List.getD, List.getElem?_set_ne (Ne.symm h)]

/-! ## Claims -/

/-- C5: after `Save`, the in-memory interactions are exactly the pre-save
interactions with every discard-on-save entry removed, order preserved, and
the survivors' position ids renumbered densely `0, 1, …, n-1`. -/
theorem save_filters_and_renumbers (c : Cassette) :
    (Cassette.save c).interactions =
      ((c.interactions.filter (fun i => !i.discardOnSave)).enum).map
        (fun p => { p.2 with id := p.1 }) ∧
    (Cassette.save c).interactions.map Interaction.id =
      List.range (c.interactions.filter (fun i => !i.discardOnSave)).length := by
  constructor
  · exact renumberFrom_eq_enumFrom 0 c.interactions
  · rw [Cassette.save, renumberFrom_eq_enumFrom 0 c.interactions]
    rw [List.map_map]
    have : (Interaction.id ∘ fun p : Nat × Interaction => { p.2 with id := p.1 }) =
        Prod.fst := by
      funext p; rfl
    rw [this]
    simp [List.range_eq_range']

/-- C7: loading a document whose version differs from the single supported
format version fails with (a wrap of) the distinguished unsupported-format
error and nothing else is attempted; a document with the supported version
never yields that error. -/
theorem load_version_check (c : Cassette) (f : CassetteFile) :
    (f.version ≠ CassetteFormatVersion →
      c.load f = .error (CassetteErr.unsupportedFormat f.version)) ∧
    (f.version = CassetteFormatVersion →
      ∀ v, c.load f ≠ .error (CassetteErr.unsupportedFormat v)) := by
  constructor
  · intro hne
    simp [Cassette.load, Cassette.decodeInto, hne]
  · intro heq v
    simp only [Cassette.load, Cassette.decodeInto, heq]
    simp only [CassetteFormatVersion]
    intro hcontra
    split at hcontra
    · omega
    · split at hcontra
      · simp at hcontra
      · split at hcontra <;> simp_all

/-- Instantiation of the version-check claim: a version-3 document is
rejected with the unsupported-format error, a version-2 document never is. -/
theorem load_version_check_witness :
    (Cassette.New "w").load ⟨3, false, []⟩ =
      .error (CassetteErr.unsupportedFormat 3) ∧
    ∀ v, (Cassette.New "w").load ⟨2, false, []⟩ ≠
      .error (CassetteErr.unsupportedFormat v) :=
  ⟨(load_version_check (Cassette.New "w") ⟨3, false, []⟩).1 (by decide),
   (load_version_check (Cassette.New "w") ⟨2, false, []⟩).2 (by decide)⟩

/-- Every `AddInteraction` call — succeeding or not — stamps the passed
interaction with the pre-call next-position counter. -/
theorem addInteraction_assigns_counter (c : Cassette) (j : Interaction) :
    ((c.addInteraction j).2.1).id = c.nextInteractionId := by
  unfold Cassette.addInteraction
  cases c.matcher with
  | none => rfl
  | some m =>
    simp only
    split
    · rfl
    · split
      · rfl
      · rfl

/-- C9: when `AddInteraction` fails because hashing the interaction's
request returned an error, the interactions slice and the fingerprint index
are untouched, but the next-position counter was already advanced and the
passed interaction's id already overwritten; consequently the position the
next add stamps is not contiguous with the last stored interaction's
position. -/
theorem addInteraction_failure_state (c : Cassette) (i : Interaction)
    (c' : Cassette) (i' : Interaction) (e : String)
    (h : c.addInteraction i = (c', i', some e)) :
    c'.interactions = c.interactions ∧
    c'.hashIndex = c.hashIndex ∧
    c'.nextInteractionId = c.nextInteractionId + 1 ∧
    i'.id = c.nextInteractionId ∧
    (∀ j, ((c'.addInteraction j).2.1).id = c.nextInteractionId + 1) ∧
    (∀ last, c.interactions.getLast? = some last →
      last.id + 1 = c.nextInteractionId →
      ∀ j, ((c'.addInteraction j).2.1).id ≠ last.id + 1) := by
  unfold Cassette.addInteraction at h
  cases hm : c.matcher with
  | none => rw [hm] at h; simp at h
  | some m =>
    rw [hm] at h
    simp only at h
    split at h
    · simp only [Prod.mk.injEq] at h
      obtain ⟨hc, hi2, -⟩ := h
      subst hc; subst hi2
      refine ⟨rfl, rfl, rfl, rfl, ?_, ?_⟩
      · intro j; rw [addInteraction_assigns_counter]
      · intro last _ hcont j
        rw [addInteraction_assigns_counter]
        dsimp only
        omega
    · split at h
      · simp only [Prod.mk.injEq] at h
        obtain ⟨hc, hi2, -⟩ := h
        subst hc; subst hi2
        refine ⟨rfl, rfl, rfl, rfl, ?_, ?_⟩
        · intro j; rw [addInteraction_assigns_counter]
        · intro last _ hcont j
          rw [addInteraction_assigns_counter]
          dsimp only
          omega
      · simp only [Prod.mk.injEq] at h
        simp at h

/-- Instantiation of the failed-add claim: after one successful add, an add
whose hash fails leaves the single stored interaction and its index entry
in place, advances the counter to 2, and stamps the next add with position
2, leaving a gap above the stored position 0. -/
theorem addInteraction_failure_state_witness :
    (exFailCassette.addInteraction exIntB).1.interactions =
        exFailCassette.interactions ∧
    (exFailCassette.addInteraction exIntB).1.hashIndex = exFailCassette.hashIndex ∧
    (exFailCassette.addInteraction exIntB).1.nextInteractionId = 2 ∧
    ((exFailCassette.addInteraction exIntB).2.1).id = 1 ∧
    (((exFailCassette.addInteraction exIntB).1.addInteraction exIntB).2.1).id ≠ 1 := by
  have h := addInteraction_failure_state exFailCassette exIntB
    (exFailCassette.addInteraction exIntB).1
    (exFailCassette.addInteraction exIntB).2.1 "boom" (by rfl)
  refine ⟨h.1, h.2.1, h.2.2.1, h.2.2.2.1, ?_⟩
  have := h.2.2.2.2.2 { exIntA with discardOnSave := false, hash := "A" }
    (by rfl) (by rfl) exIntB
  simpa using this

/-- The bucket scan started with a remembered entry never ends with an
empty `lastReplayedIdx`. -/
theorem replayLoop_some_ne_exhausted_none (c : Cassette) :
    ∀ (idxs : List Nat) (j : Nat),
      c.replayLoop idxs (some j) ≠ LoopResult.exhausted none := by
  intro idxs
  induction idxs with
  | nil => intro j h; exact Option.noConfusion (LoopResult.exhausted.inj h)
  | cons idx rest ih =>
    intro j
    unfold Cassette.replayLoop
    split
    · exact ih idx
    · intro h; exact LoopResult.noConfusion h

/-- When replayable interactions are disabled and every entry of the bucket
tail is already replayed, the scan runs out remembering the last entry. -/
theorem replayLoop_all_replayed (c : Cassette) (hrep : c.replayableInteractions = false) :
    ∀ (idxs : List Nat) (j : Nat),
      (∀ i ∈ idxs, (c.interactions.getD i default).replayed = true) →
      c.replayLoop idxs (some j) = LoopResult.exhausted (some (idxs.getLastD j)) := by
  intro idxs
  induction idxs with
  | nil => intro j _; rfl
  | cons idx rest ih =>
    intro j hall
    unfold Cassette.replayLoop
    rw [hrep]
    simp only [Bool.not_false, Bool.true_and]
    rw [hall idx (List.mem_cons_self idx rest)]
    simp only [if_true]
    rw [ih idx (fun i hi => hall i (List.mem_cons_of_mem idx hi))]
    rw [List.getLastD_cons]

/-- A scan that takes an entry marks exactly that entry, and the entry came
from the bucket and was eligible. -/
theorem replayLoop_found (c : Cassette) :
    ∀ (idxs : List Nat) (last : Option Nat) (c2 : Cassette) (idx : Nat),
      c.replayLoop idxs last = LoopResult.found c2 idx →
      idx ∈ idxs ∧ c2 = c.markReplayed idx ∧
        !(!c.replayableInteractions && (c.interactions.getD idx default).replayed) := by
  intro idxs
  induction idxs with
  | nil => intro last c2 idx h; exact LoopResult.noConfusion h
  | cons i0 rest ih =>
    intro last c2 idx h
    unfold Cassette.replayLoop at h
    split at h
    · obtain ⟨hmem, hc2, helig⟩ := ih (some i0) c2 idx h
      exact ⟨List.mem_cons_of_mem i0 hmem, hc2, helig⟩
    · obtain ⟨hc2, hidx⟩ := LoopResult.found.inj h
      subst hidx
      refine ⟨List.mem_cons_self i0 rest, hc2.symm, ?_⟩
      rcases hb : c.replayableInteractions <;>
        rcases hbr : (c.interactions.getD i0 default).replayed <;> simp_all

/-- A scan that runs out (having started with nothing remembered) remembers
an entry only if that entry is in the bucket, is already replayed, and
replayable interactions are disabled. -/
theorem replayLoop_exhausted_mem (c : Cassette) :
    ∀ (idxs : List Nat) (last : Option Nat) (j : Nat),
      c.replayLoop idxs last = LoopResult.exhausted (some j) →
      (j ∈ idxs ∧ (c.interactions.getD j default).replayed = true ∧
        c.replayableInteractions = false) ∨ last = some j := by
  intro idxs
  induction idxs with
  | nil =>
    intro last j h
    right
    exact LoopResult.exhausted.inj h
  | cons i0 rest ih =>
    intro last j h
    unfold Cassette.replayLoop at h
    split at h
    · rename_i hcond
      rcases ih (some i0) j h with hin | hlast
      · exact Or.inl ⟨List.mem_cons_of_mem i0 hin.1, hin.2⟩
      · obtain rfl : i0 = j := Option.some.inj hlast
        left
        refine ⟨List.mem_cons_self i0 rest, ?_, ?_⟩
        · cases hb : (c.interactions.getD i0 default).replayed
          · rw [hb] at hcond; simp at hcond
          · rfl
        · cases hr : c.replayableInteractions
          · rfl
          · rw [hr] at hcond; simp at hcond
    · exact LoopResult.noConfusion h

/-- A scan over a non-empty bucket never ends with an empty
`lastReplayedIdx`. -/
theorem replayLoop_cons_ne_exhausted_none (c : Cassette) (i0 : Nat) (restl : List Nat)
    (l : Option Nat) :
    c.replayLoop (i0 :: restl) l ≠ LoopResult.exhausted none := by
  unfold Cassette.replayLoop
  split
  · exact replayLoop_some_ne_exhausted_none c restl i0
  · intro h; exact LoopResult.noConfusion h

/-- C10: with replayable interactions enabled, a lookup for a fingerprint
takes the first interaction of that fingerprint's bucket — whatever the
replayed flags, so every repetition takes the same entry, never a later one
— sets that entry's replayed flag in place, and returns the override-clone
of the marked entry. -/
theorem replayable_lookup_first (c : Cassette) (r : HTTPRequest)
    (m : HTTPRequest → Except String String) (hv : String)
    (idx : Nat) (restl : List Nat)
    (hm : c.matcher = some m)
    (hrep : c.replayableInteractions = true)
    (hh : m (cacheBody r).2 = .ok hv)
    (hb : lookupIdx c.hashIndex hv = some (idx :: restl))
    (hlt : idx < c.interactions.length) :
    c.getInteraction r =
      ({ c with interactions := (c.interactions.set idx
            { c.interactions.getD idx default with replayed := true }) },
       (Cassette.overrideRecordedRequestBody (cacheBody r).2
          { c.interactions.getD idx default with replayed := true } (cacheBody r).1).1,
       .ok (Cassette.overrideRecordedRequestBody (cacheBody r).2
          { c.interactions.getD idx default with replayed := true } (cacheBody r).1).2) ∧
    ((c.getInteraction r).1).interactions.getD idx default =
      { c.interactions.getD idx default with replayed := true } := by
  have hloop : c.replayLoop (idx :: restl) none =
      LoopResult.found (c.markReplayed idx) idx := by
    unfold Cassette.replayLoop
    rw [hrep]
    simp
  have hgetD : ((c.markReplayed idx).interactions).getD idx default =
      { c.interactions.getD idx default with replayed := true } := by
    unfold Cassette.markReplayed
    exact list_getD_set_self c.interactions idx _ hlt
  have hmain : c.getInteraction r =
      ({ c with interactions := (c.interactions.set idx
            { c.interactions.getD idx default with replayed := true }) },
       (Cassette.overrideRecordedRequestBody (cacheBody r).2
          { c.interactions.getD idx default with replayed := true } (cacheBody r).1).1,
       .ok (Cassette.overrideRecordedRequestBody (cacheBody r).2
          { c.interactions.getD idx default with replayed := true } (cacheBody r).1).2) := by
    unfold Cassette.getInteraction
    rw [hm]
    dsimp only
    rcases hcb : cacheBody r with ⟨bb, r1⟩
    rw [hcb] at hh
    dsimp only at hh
    rw [hh]
    dsimp only
    rw [hb]
    dsimp only
    rw [hloop]
    dsimp only
    rw [hgetD]
    unfold Cassette.markReplayed
    dsimp only
    rw [hm]
  refine ⟨hmain, ?_⟩
  rw [hmain]
  exact hgetD

/-- Instantiation of the replayable-lookup claim on a cassette whose two
interactions share one fingerprint and are both already replayed: the
lookup still takes the bucket's first entry (position 0). -/
theorem replayable_lookup_first_witness :
    (exReplayable.getInteraction exLiveA).2.2 =
      Except.ok ((Cassette.overrideRecordedRequestBody (cacheBody exLiveA).2
        { exReplayable.interactions.getD 0 default with replayed := true }
        (cacheBody exLiveA).1).2) ∧
    ((exReplayable.getInteraction exLiveA).1).interactions.getD 0 default =
      { exReplayable.interactions.getD 0 default with replayed := true } := by
  have h := replayable_lookup_first exReplayable exLiveA _ "H" 0 [1]
    rfl rfl rfl (by rfl) (by decide)
  exact ⟨by rw [h.1], h.2⟩

/-- C1: with replayable interactions disabled, a lookup whose fingerprint
bucket is non-empty but fully replayed falls back to (a clone of) the
bucket's last — most recently replayed — entry, leaving the cassette
unchanged, instead of failing; a non-empty bucket can never produce the
interaction-not-found error; only a fingerprint with no bucket at all
yields that distinguished error. -/
theorem getInteraction_exhausted_fallback (c : Cassette) (r : HTTPRequest)
    (m : HTTPRequest → Except String String) (hv : String)
    (hm : c.matcher = some m)
    (hrep : c.replayableInteractions = false)
    (hh : m (cacheBody r).2 = .ok hv) :
    (∀ idxs, lookupIdx c.hashIndex hv = some idxs → idxs ≠ [] →
      (∀ i ∈ idxs, (c.interactions.getD i default).replayed = true) →
      ∃ lastIdx, idxs.getLast? = some lastIdx ∧
        c.getInteraction r =
          (c, (Cassette.overrideRecordedRequestBody (cacheBody r).2
                 (c.interactions.getD lastIdx default) (cacheBody r).1).1,
             .ok (Cassette.overrideRecordedRequestBody (cacheBody r).2
                 (c.interactions.getD lastIdx default) (cacheBody r).1).2)) ∧
    (∀ idxs, lookupIdx c.hashIndex hv = some idxs → idxs ≠ [] →
      (c.getInteraction r).2.2 ≠ .error CassetteErr.interactionNotFound) ∧
    (lookupIdx c.hashIndex hv = none →
      (c.getInteraction r).2.2 = .error CassetteErr.interactionNotFound) := by
  refine ⟨?_, ?_, ?_⟩
  · rintro (_ | ⟨i0, restl⟩) hb hne hall
    · exact absurd rfl hne
    · refine ⟨restl.getLastD i0, by simp [List.getLast?_cons, List.getLastD_eq_getLast?], ?_⟩
      have hloop : c.replayLoop (i0 :: restl) none =
          LoopResult.exhausted (some (restl.getLastD i0)) := by
        unfold Cassette.replayLoop
        rw [hrep]
        simp only [Bool.not_false, Bool.true_and]
        rw [hall i0 (List.mem_cons_self i0 restl)]
        simp only [if_true]
        exact replayLoop_all_replayed c hrep restl i0
          (fun i hi => hall i (List.mem_cons_of_mem i0 hi))
      unfold Cassette.getInteraction
      rw [hm]
      dsimp only
      rcases hcb : cacheBody r with ⟨bb, r1⟩
      rw [hcb] at hh
      dsimp only at hh
      rw [hh]
      dsimp only
      rw [hb]
      dsimp only
      rw [hloop]
  · rintro (_ | ⟨i0, restl⟩) hb hne
    · exact absurd rfl hne
    · unfold Cassette.getInteraction
      rw [hm]
      dsimp only
      rcases hcb : cacheBody r with ⟨bb, r1⟩
      rw [hcb] at hh
      dsimp only at hh
      rw [hh]
      dsimp only
      rw [hb]
      dsimp only
      rcases hres : c.replayLoop (i0 :: restl) none with ⟨c2, idx⟩ | ⟨_ | j⟩
      · dsimp only; simp
      · exact absurd hres (replayLoop_cons_ne_exhausted_none c i0 restl none)
      · dsimp only; simp
  · intro hb
    unfold Cassette.getInteraction
    rw [hm]
    dsimp only
    rcases hcb : cacheBody r with ⟨bb, r1⟩
    rw [hcb] at hh
    dsimp only at hh
    rw [hh]
    dsimp only
    rw [hb]

/-- Instantiation of the fallback claim on `exExhausted` (bucket `[0, 1]`
under fingerprint `H`, both entries replayed): the lookup returns the
override-clone of the entry at position 1, and an unknown fingerprint
yields the not-found error. -/
theorem getInteraction_exhausted_fallback_witness :
    exExhausted.getInteraction exLiveA =
      (exExhausted,
       (Cassette.overrideRecordedRequestBody (cacheBody exLiveA).2
          (exExhausted.interactions.getD 1 default) (cacheBody exLiveA).1).1,
       .ok (Cassette.overrideRecordedRequestBody (cacheBody exLiveA).2
          (exExhausted.interactions.getD 1 default) (cacheBody exLiveA).1).2) ∧
    ({ exExhausted with matcher := some exUrlHash }.getInteraction exLiveA).2.2 =
      .error CassetteErr.interactionNotFound := by
  constructor
  · have h := (getInteraction_exhausted_fallback exExhausted exLiveA _ "H"
      rfl rfl rfl).1 [0, 1] (by rfl) (by decide) (by decide)
    obtain ⟨lastIdx, hlast, hres⟩ := h
    have : lastIdx = 1 := by
      simpa using hlast.symm
    rw [this] at hres
    exact hres
  · exact (getInteraction_exhausted_fallback { exExhausted with matcher := some exUrlHash }
      exLiveA exUrlHash "http://a/" rfl rfl rfl).2.2 (by rfl)

/-- The bytes cached by `GetInteraction`'s prologue are exactly the bytes a
downstream reader could still read from the incoming request's body. -/
theorem cacheBody_fst (r : HTTPRequest) : (cacheBody r).1 = r.body.readable := by
  unfold cacheBody
  rcases hb : r.body <;> simp [hb, Body.readAll, Body.readable]

/-- What `overrideRecordedRequestBody` returns: a copy of the interaction
whose request body is the cached live bytes and whose form is the returned
live request's `PostForm`; all other fields are the original's. -/
theorem override_spec (r1 : HTTPRequest) (orig : Interaction) (bb : String) :
    (Cassette.overrideRecordedRequestBody r1 orig bb).2 =
      { orig with
          request := { orig.request with
                         body := bb
                         form := (Cassette.overrideRecordedRequestBody r1 orig bb).1.postForm } } := by
  unfold Cassette.overrideRecordedRequestBody
  rcases hpf : parseFormGo { r1 with body := Body.stream bb } with ⟨r2, e⟩
  dsimp only

/-- A bucket delivered by the index lookup is the value list of an entry of
the index. -/
theorem lookupIdx_mem (m : List (String × List Nat)) (k : String) (idxs : List Nat)
    (h : lookupIdx m k = some idxs) : ∃ p ∈ m, p.2 = idxs := by
  unfold lookupIdx at h
  rcases hf : m.find? (fun p => p.1 == k) with _ | p
  · rw [hf] at h; exact Option.noConfusion h
  · rw [hf] at h
    exact ⟨p, List.mem_of_find?_eq_some hf, Option.some.inj h⟩

/-- C8: every successful lookup hands back a copy, not the stored entry:
the returned interaction carries the stored id, hash and response, its
request body overwritten with the bytes actually read from the live request
and its form with the live request's parsed post-form, while the stored
entry keeps its recorded request and response with only its replayed flag
set; all other entries and the fingerprint index are untouched. -/
theorem getInteraction_returns_clone (c : Cassette) (r : HTTPRequest)
    (c' : Cassette) (r' : HTTPRequest) (ret : Interaction)
    (hrange : c.indexInRange)
    (h : c.getInteraction r = (c', r', .ok ret)) :
    ∃ j, j < c.interactions.length ∧
      ret = { c.interactions.getD j default with
                replayed := true
                request := { (c.interactions.getD j default).request with
                               body := r.body.readable
                               form := r'.postForm } } ∧
      c'.interactions.length = c.interactions.length ∧
      c'.interactions.getD j default =
        { c.interactions.getD j default with replayed := true } ∧
      (∀ k, k ≠ j → c'.interactions.getD k default = c.interactions.getD k default) ∧
      c'.hashIndex = c.hashIndex ∧
      ret.response = (c.interactions.getD j default).response ∧
      ret.id = (c.interactions.getD j default).id := by
  unfold Cassette.getInteraction at h
  cases hm : c.matcher with
  | none => rw [hm] at h; dsimp only at h; simp at h
  | some m =>
    rw [hm] at h
    dsimp only at h
    rcases hcb : cacheBody r with ⟨bb, r1⟩
    rw [hcb] at h
    have hbb : bb = r.body.readable := by
      rw [← cacheBody_fst r, hcb]
    dsimp only at h
    cases hmr : m r1 with
    | error e => rw [hmr] at h; dsimp only at h; simp at h
    | ok hv =>
      rw [hmr] at h
      dsimp only at h
      cases hbk : lookupIdx c.hashIndex hv with
      | none => rw [hbk] at h; dsimp only at h; simp at h
      | some idxs =>
        rw [hbk] at h
        dsimp only at h
        have hmem : ∀ i ∈ idxs, i < c.interactions.length := by
          obtain ⟨p, hp, hps⟩ := lookupIdx_mem c.hashIndex hv idxs hbk
          intro i hi
          exact hrange p hp i (hps ▸ hi)
        cases hres : c.replayLoop idxs none with
        | found c2 idx =>
          rw [hres] at h
          dsimp only at h
          obtain ⟨hidx, hc2, -⟩ := replayLoop_found c idxs none c2 idx hres
          have hlt : idx < c.interactions.length := hmem idx hidx
          obtain ⟨hc, hrest⟩ := Prod.mk.injEq .. ▸ h
          obtain ⟨hr, hret⟩ := Prod.mk.injEq .. ▸ hrest
          subst hc2
          have hretv := Except.ok.inj hret
          have hstored : (c.markReplayed idx).interactions.getD idx default =
              { c.interactions.getD idx default with replayed := true } := by
            unfold Cassette.markReplayed
            exact list_getD_set_self c.interactions idx _ hlt
          refine ⟨idx, hlt, ?_, ?_, ?_, ?_, ?_, ?_, ?_⟩
          · rw [← hretv, override_spec, hr, hstored, ← hbb]
          · rw [← hc]
            unfold Cassette.markReplayed
            exact List.length_set c.interactions idx _
          · rw [← hc]
            exact hstored
          · intro k hk
            rw [← hc]
            unfold Cassette.markReplayed
            exact list_getD_set_ne c.interactions idx k _ hk
          · rw [← hc]
            rfl
          · rw [← hretv, override_spec, hstored]
          · rw [← hretv, override_spec, hstored]
        | exhausted lastOpt =>
          cases lastOpt with
          | none => rw [hres] at h; dsimp only at h; simp at h
          | some lastIdx =>
            rw [hres] at h
            dsimp only at h
            have hfall := replayLoop_exhausted_mem c idxs none lastIdx hres
            have hinfo : lastIdx ∈ idxs ∧
                (c.interactions.getD lastIdx default).replayed = true ∧
                c.replayableInteractions = false := by
              rcases hfall with hgood | hbad
              · exact hgood
              · exact Option.noConfusion hbad
            have hlt : lastIdx < c.interactions.length := hmem lastIdx hinfo.1
            obtain ⟨hc, hrest⟩ := Prod.mk.injEq .. ▸ h
            obtain ⟨hr, hret⟩ := Prod.mk.injEq .. ▸ hrest
            have hretv := Except.ok.inj hret
            refine ⟨lastIdx, hlt, ?_, ?_, ?_, ?_, ?_, ?_, ?_⟩
            · rw [← hretv, override_spec, hr, ← hbb, hinfo.2.1]
            · rw [← hc]
            · rw [← hc]
              conv_rhs => rw [← hinfo.2.1]
            · intro k hk
              rw [← hc]
            · rw [← hc]
            · rw [← hretv, override_spec]
            · rw [← hretv, override_spec]

/-- Instantiation of the lookup-clone claim: a lookup of `exLiveA` against
`exCassette` succeeds on some position, the returned interaction is the
stored one with its replayed flag set and its request body/form replaced by
the live bytes and live post-form, and the index is untouched. -/
theorem getInteraction_returns_clone_witness :
    ∃ j, j < exCassette.interactions.length ∧
      ((exCassette.getInteraction exLiveA).2.2).toOption.getD default =
        { exCassette.interactions.getD j default with
            replayed := true
            request := { (exCassette.interactions.getD j default).request with
                           body := exLiveA.body.readable
                           form := ((exCassette.getInteraction exLiveA).2.1).postForm } } ∧
      ((exCassette.getInteraction exLiveA).1).hashIndex = exCassette.hashIndex := by
  obtain ⟨j, hj, hret, hlen, hstored, hoth, hidx2, hresp, hid⟩ :=
    getInteraction_returns_clone exCassette exLiveA _ _ _
      (by unfold Cassette.indexInRange; decide) rfl
  exact ⟨j, hj, hret, hidx2⟩

/-- `Char.ofNat` round-trips on code points below the surrogate range. -/
theorem char_toNat_ofNat (n : Nat) (h : n < 55296) : (Char.ofNat n).toNat = n := by
  have hv : n.isValidChar := Or.inl h
  rw [Char.ofNat, dif_pos hv]
  rfl

/-- ASCII lower-casing is idempotent. -/
theorem asciiToLower_asciiToLower (c : Char) :
    asciiToLower (asciiToLower c) = asciiToLower c := by
  unfold asciiToLower
  by_cases h : 65 ≤ c.toNat ∧ c.toNat ≤ 90
  · rw [if_pos h]
    have h1 : (Char.ofNat (c.toNat + 32)).toNat = c.toNat + 32 :=
      char_toNat_ofNat _ (by omega)
    rw [if_neg (by rw [h1]; omega)]
  · rw [if_neg h, if_neg h]

/-- Lower-casing after upper-casing is plain lower-casing. -/
theorem asciiToLower_asciiToUpper (c : Char) :
    asciiToLower (asciiToUpper c) = asciiToLower c := by
  unfold asciiToUpper asciiToLower
  by_cases h : 97 ≤ c.toNat ∧ c.toNat ≤ 122
  · rw [if_pos h]
    have h1 : (Char.ofNat (c.toNat - 32)).toNat = c.toNat - 32 :=
      char_toNat_ofNat _ (by omega)
    rw [if_pos (by rw [h1]; omega), if_neg (by omega), h1]
    have h2 : c.toNat - 32 + 32 = c.toNat := by omega
    rw [h2, Char.ofNat_toNat]
  · rw [if_neg h]

/-- Upper-casing after lower-casing is plain upper-casing. -/
theorem asciiToUpper_asciiToLower (c : Char) :
    asciiToUpper (asciiToLower c) = asciiToUpper c := by
  unfold asciiToLower asciiToUpper
  by_cases h : 65 ≤ c.toNat ∧ c.toNat ≤ 90
  · rw [if_pos h]
    have h1 : (Char.ofNat (c.toNat + 32)).toNat = c.toNat + 32 :=
      char_toNat_ofNat _ (by omega)
    rw [if_pos (by rw [h1]; omega), if_neg (by omega), h1]
    have h2 : c.toNat + 32 - 32 = c.toNat := by omega
    rw [h2, Char.ofNat_toNat]
  · rw [if_neg h]

/-- Characters with the same lower-casing have the same upper-casing. -/
theorem asciiToUpper_congr (a b : Char) (h : asciiToLower a = asciiToLower b) :
    asciiToUpper a = asciiToUpper b := by
  rw [← asciiToUpper_asciiToLower a, ← asciiToUpper_asciiToLower b, h]

/-- Lower-casing a canonicalized key gives the lower-cased key. -/
theorem map_asciiToLower_canonChars : ∀ (flag : Bool) (l : List Char),
    (canonChars flag l).map asciiToLower = l.map asciiToLower := by
  intro flag l
  induction l generalizing flag with
  | nil => rfl
  | cons a t ih =>
    cases flag
    · simp [canonChars, asciiToLower_asciiToLower, ih]
    · simp [canonChars, asciiToLower_asciiToUpper, ih]

/-- Canonicalization depends only on the lower-cased key. -/
theorem canonChars_congr : ∀ (flag : Bool) (l1 l2 : List Char),
    l1.map asciiToLower = l2.map asciiToLower → canonChars flag l1 = canonChars flag l2 := by
  intro flag l1
  induction l1 generalizing flag with
  | nil =>
    intro l2 h
    cases l2 with
    | nil => rfl
    | cons b t2 => simp at h
  | cons a t ih =>
    intro l2 h
    cases l2 with
    | nil => simp at h
    | cons b t2 =>
      simp only [List.map_cons, List.cons.injEq] at h
      obtain ⟨hab, ht⟩ := h
      simp only [canonChars]
      have hch : (if flag then asciiToUpper a else asciiToLower a) =
          (if flag then asciiToUpper b else asciiToLower b) := by
        cases flag
        · simpa using hab
        · simpa using asciiToUpper_congr a b hab
      rw [hch, ih _ t2 ht]

/-- For valid header keys, canonical equality is exactly case-insensitive
equality. -/
theorem canonicalHeaderKey_eq_iff (a b : String)
    (ha : a.data.all isTokenChar = true) (hb : b.data.all isTokenChar = true) :
    canonicalHeaderKey a = canonicalHeaderKey b ↔ lowerStr a = lowerStr b := by
  unfold canonicalHeaderKey
  rw [if_pos ha, if_pos hb]
  constructor
  · intro h
    have hdata : canonChars true a.data = canonChars true b.data :=
      congrArg String.data h
    unfold lowerStr
    rw [← map_asciiToLower_canonChars true a.data, ← map_asciiToLower_canonChars true b.data,
      hdata]
  · intro h
    have hdata : a.data.map asciiToLower = b.data.map asciiToLower :=
      congrArg String.data h
    exact congrArg String.mk (canonChars_congr true a.data b.data hdata)

/-- The ignore test of hasher.go (canonical-key membership) agrees with the
specification's case-insensitive name match, on valid header names. -/
theorem ignore_match_eq (k : String) (hk : k.data.all isTokenChar = true) :
    ∀ (ignore : List String), (∀ n ∈ ignore, n.data.all isTokenChar = true) →
      ((ignore.map canonicalHeaderKey).contains (canonicalHeaderKey k)) =
        ignore.any (fun n => lowerStr n == lowerStr k) := by
  intro ignore
  induction ignore with
  | nil => intro _; rfl
  | cons n t ih =>
    intro hall
    have hn : n.data.all isTokenChar = true := hall n (List.mem_cons_self n t)
    have hiff : (canonicalHeaderKey k = canonicalHeaderKey n) ↔ (lowerStr n = lowerStr k) :=
      (canonicalHeaderKey_eq_iff k n hk hn).trans eq_comm
    have hrec := ih (fun x hx => hall x (List.mem_cons_of_mem n hx))
    have hhead : (canonicalHeaderKey k == canonicalHeaderKey n) =
        (lowerStr n == lowerStr k) := by
      by_cases hc : canonicalHeaderKey k = canonicalHeaderKey n
      · simp [hc, hiff.mp hc]
      · have h2 : ¬(lowerStr n = lowerStr k) := fun hl => hc (hiff.mpr hl)
        simp [hc, h2]
    show ((canonicalHeaderKey k == canonicalHeaderKey n) ||
        (t.map canonicalHeaderKey).contains (canonicalHeaderKey k)) =
      ((lowerStr n == lowerStr k) || t.any (fun x => lowerStr x == lowerStr k))
    rw [hrec, hhead]

/-- The insertion sort modelling `sort.Strings` is Mathlib's insertion
sort. -/
theorem sortStrings_eq_insertionSort (l : List String) :
    sortStrings l = List.insertionSort (· ≤ ·) l := by
  induction l with
  | nil => rfl
  | cons a t ih =>
    show insertSorted a (sortStrings t) = List.orderedInsert (· ≤ ·) a (List.insertionSort (· ≤ ·) t)
    rw [← ih]
    generalize sortStrings t = u
    induction u with
    | nil => rfl
    | cons b v ihv =>
      show (if a ≤ b then _ else _) = if a ≤ b then _ else _
      by_cases hab : a ≤ b
      · rw [if_pos hab, if_pos hab]
      · rw [if_neg hab, if_neg hab]
        rw [show insertSorted a v = List.orderedInsert (· ≤ ·) a v from ihv]

/-- C4: on requests whose header and trailer names (and the caller's
ignore-list entries) are valid HTTP token strings, the canonicalized
header/trailer serialization entering the fingerprint is exactly the
specification's: ignore-listed names dropped case-insensitively, remaining
names sorted lexicographically, each name's values sorted lexicographically
and joined with `,`, entries joined with `;`; transfer-encoding values are
sorted before joining with `,` (and the sort used is a genuine ascending
lexicographic sort). -/
theorem serializeHeaders_matches_spec (h : Header) (ignore : List String)
    (te : List String)
    (hk : ∀ k ∈ h.map Prod.fst, k.data.all isTokenChar = true)
    (hi : ∀ n ∈ ignore, n.data.all isTokenChar = true) :
    serializeHeaders h ignore = serializeHeadersSpec h ignore ∧
    serializeTransferEncoding te = serializeTransferEncodingSpec te ∧
    List.Sorted (· ≤ ·) (sortStrings te) ∧ (sortStrings te).Perm te := by
  refine ⟨?_, ?_, ?_, ?_⟩
  · have hfil : (h.map Prod.fst).filter
          (fun k => !(ignore.map canonicalHeaderKey).contains (canonicalHeaderKey k)) =
        (h.map Prod.fst).filter
          (fun k => !ignore.any (fun n => lowerStr n == lowerStr k)) := by
      apply List.filter_congr
      intro k hkmem
      rw [ignore_match_eq k (hk k hkmem) ignore hi]
    rcases h with _ | ⟨p, hrest⟩
    · rfl
    · unfold serializeHeaders serializeHeadersSpec
      rw [if_neg (by simp)]
      dsimp only
      rw [hfil]
  · rcases te with _ | ⟨s0, ts⟩
    · rfl
    · unfold serializeTransferEncoding serializeTransferEncodingSpec
      rw [if_neg (by simp)]
  · rw [sortStrings_eq_insertionSort]
    exact List.sorted_insertionSort (· ≤ ·) te
  · rw [sortStrings_eq_insertionSort]
    exact List.perm_insertionSort (· ≤ ·) te

/-- Instantiation of the header-serialization claim on a three-header
request with a case-insensitively ignored `User-Agent`. -/
theorem serializeHeaders_matches_spec_witness :
    serializeHeaders [("b", ["2", "1"]), ("User-Agent", ["x"]), ("a", ["1"])]
        ["user-agent"] =
      serializeHeadersSpec [("b", ["2", "1"]), ("User-Agent", ["x"]), ("a", ["1"])]
        ["user-agent"] ∧
    serializeTransferEncoding ["gzip", "chunked"] =
      serializeTransferEncodingSpec ["gzip", "chunked"] ∧
    List.Sorted (· ≤ ·) (sortStrings ["gzip", "chunked"]) ∧
    (sortStrings ["gzip", "chunked"]).Perm ["gzip", "chunked"] :=
  serializeHeaders_matches_spec
    [("b", ["2", "1"]), ("User-Agent", ["x"]), ("a", ["1"])] ["user-agent"]
    ["gzip", "chunked"] (by decide) (by decide)

/-- When every interaction already carries a persisted hash, the index
rebuild changes no interaction and reports no upgrade. -/
theorem buildHashIndexLoop_no_upgrade (m : HTTPRequest → Except String String) :
    ∀ (l acc : List Interaction) (pos : Nat) (idxm : List (String × List Nat)) (upg : Bool),
      (∀ i ∈ l, i.hash ≠ "") →
      ∃ idxm2, buildHashIndexLoop m pos acc l idxm upg = .ok (acc ++ l, idxm2, upg) := by
  intro l
  induction l with
  | nil =>
    intro acc pos idxm upg _
    exact ⟨idxm, by simp [buildHashIndexLoop]⟩
  | cons i rest ih =>
    intro acc pos idxm upg hall
    have hi : i.hash ≠ "" := hall i (List.mem_cons_self i rest)
    obtain ⟨idxm2, hrec⟩ := ih (acc ++ [i]) (pos + 1) (appendIdx idxm i.hash pos) upg
      (fun x hx => hall x (List.mem_cons_of_mem i hx))
    refine ⟨idxm2, ?_⟩
    unfold buildHashIndexLoop
    rw [if_neg hi, hrec]
    simp

/-- What `Load` computes on a matcher-equipped cassette and a
supported-version document whose interactions all carry hashes: success,
with the in-memory interactions exactly the decoded ones. -/
theorem load_interactions (c0 : Cassette) (f : CassetteFile)
    (m : HTTPRequest → Except String String)
    (hva : f.version = CassetteFormatVersion)
    (hm : c0.matcher = some m)
    (hhash : ∀ p ∈ f.interactions, p.hash ≠ "") :
    ∃ c2, c0.load f = .ok c2 ∧
      c2.interactions = f.interactions.map (fun p =>
        { id := p.id, hash := p.hash, request := p.request, response := p.response
          discardOnSave := false, replayed := false }) := by
  have hdechash : ∀ i ∈ f.interactions.map (fun p =>
      ({ id := p.id, hash := p.hash, request := p.request, response := p.response
         discardOnSave := false, replayed := false } : Interaction)), i.hash ≠ "" := by
    intro i hi
    obtain ⟨p, hp, rfl⟩ := List.mem_map.mp hi
    exact hhash p hp
  obtain ⟨idxm2, hloop⟩ := buildHashIndexLoop_no_upgrade m
    (f.interactions.map (fun p =>
      { id := p.id, hash := p.hash, request := p.request, response := p.response
        discardOnSave := false, replayed := false })) [] 0
    (({ c0 with isNew := false }).decodeInto f).hashIndex false hdechash
  unfold Cassette.load
  dsimp only
  rw [if_neg (by
    unfold Cassette.decodeInto
    dsimp only
    simp [hva])]
  unfold Cassette.buildHashIndex
  dsimp only
  have h1 : (({ c0 with isNew := false }).decodeInto f).matcher = some m := hm
  rw [h1]
  dsimp only
  have h2 : (({ c0 with isNew := false }).decodeInto f).interactions =
      f.interactions.map (fun p =>
        { id := p.id, hash := p.hash, request := p.request, response := p.response
          discardOnSave := false, replayed := false }) := rfl
  rw [h2]
  rw [hloop]
  dsimp only
  rw [if_neg Bool.false_ne_true]
  exact ⟨_, rfl, rfl⟩

/-- Renumbering positions and decoding (which resets only the unexported
flags and keeps the renumbered id) leave the request/response projection of
an interaction list untouched and make the id projection the dense range. -/
theorem decode_renum_facts : ∀ (l : List Interaction) (n : Nat),
    ((((l.enumFrom n).map (fun p => ({ p.2 with id := p.1 } : Interaction))).map
        (fun i => ({ id := i.id, hash := i.hash, request := i.request, response := i.response
                     discardOnSave := false, replayed := false } : Interaction))).map
        (fun i => (i.request, i.response)) = l.map (fun i => (i.request, i.response))) ∧
    ((((l.enumFrom n).map (fun p => ({ p.2 with id := p.1 } : Interaction))).map
        (fun i => ({ id := i.id, hash := i.hash, request := i.request, response := i.response
                     discardOnSave := false, replayed := false } : Interaction))).map
        Interaction.id = List.range' n l.length) := by
  intro l
  induction l with
  | nil => intro n; exact ⟨rfl, rfl⟩
  | cons a t ih =>
    intro n
    obtain ⟨ih1, ih2⟩ := ih (n + 1)
    constructor
    · simp only [List.enumFrom, List.map_cons]
      rw [ih1]
    · simp only [List.enumFrom, List.map_cons, List.length_cons, List.range']
      rw [ih2]

/-- C6: saving a cassette and loading the file back (the package-level
`Load`, on a fresh cassette of the same name) succeeds and yields the same
interaction count, order and per-interaction request/response fields as the
pre-save in-memory state up to dense position renumbering, with the YAML
encoder/decoder treated as an exact inverse pair.  The hypothesis that the
saved interactions carry non-empty hashes holds for every interaction that
went through `AddInteraction`'s hashing path with a non-degenerate
matcher. -/
theorem save_load_round_trip (c : Cassette) (name2 : String)
    (hv : c.version = CassetteFormatVersion)
    (hh : ∀ i ∈ (Cassette.save c).interactions, i.hash ≠ "") :
    ∃ c2, (Cassette.New name2).load ((Cassette.save c).marshal) = .ok c2 ∧
      c2.interactions.map (fun i => (i.request, i.response)) =
        (c.interactions.filter (fun i => !i.discardOnSave)).map
          (fun i => (i.request, i.response)) ∧
      c2.interactions.length =
        (c.interactions.filter (fun i => !i.discardOnSave)).length ∧
      c2.interactions.map Interaction.id = List.range c2.interactions.length := by
  have hva : ((Cassette.save c).marshal).version = CassetteFormatVersion := by
    have h0 : ((Cassette.save c).marshal).version = c.version := rfl
    rw [h0, hv]
  have hhash : ∀ p ∈ ((Cassette.save c).marshal).interactions, p.hash ≠ "" := by
    intro p hp
    have h0 : ((Cassette.save c).marshal).interactions =
        (Cassette.save c).interactions.map (fun i =>
          ({ id := i.id, hash := i.hash, request := i.request, response := i.response } :
            PersistedInteraction)) := rfl
    rw [h0] at hp
    obtain ⟨i, hi, rfl⟩ := List.mem_map.mp hp
    exact hh i hi
  obtain ⟨c2, hload, hints⟩ :=
    load_interactions (Cassette.New name2) ((Cassette.save c).marshal)
      defaultMatcherHash hva rfl hhash
  have hsavedints : (Cassette.save c).interactions =
      ((c.interactions.filter (fun i => !i.discardOnSave)).enum).map
        (fun p => { p.2 with id := p.1 }) := renumberFrom_eq_enumFrom 0 c.interactions
  have hcomp : c2.interactions =
      (Cassette.save c).interactions.map (fun i =>
        { id := i.id, hash := i.hash, request := i.request, response := i.response
          discardOnSave := false, replayed := false }) := by
    rw [hints]
    have h0 : ((Cassette.save c).marshal).interactions =
        (Cassette.save c).interactions.map (fun i =>
          ({ id := i.id, hash := i.hash, request := i.request, response := i.response } :
            PersistedInteraction)) := rfl
    rw [h0]
    rw [List.map_map]
    rfl
  refine ⟨c2, hload, ?_, ?_, ?_⟩
  · rw [hcomp, hsavedints]
    exact (decode_renum_facts (c.interactions.filter (fun i => !i.discardOnSave)) 0).1
  · rw [hcomp, hsavedints]
    simp
  · have hlen : c2.interactions.length =
        (c.interactions.filter (fun i => !i.discardOnSave)).length := by
      rw [hcomp, hsavedints]
      simp
    rw [hlen, hcomp, hsavedints, List.range_eq_range']
    exact (decode_renum_facts (c.interactions.filter (fun i => !i.discardOnSave)) 0).2

/-- Instantiation of the round-trip claim on `exCassette` (one discarded
and one kept interaction). -/
theorem save_load_round_trip_witness :
    ∃ c2, (Cassette.New "c").load ((Cassette.save exCassette).marshal) = .ok c2 ∧
      c2.interactions.map (fun i => (i.request, i.response)) =
        (exCassette.interactions.filter (fun i => !i.discardOnSave)).map
          (fun i => (i.request, i.response)) ∧
      c2.interactions.length =
        (exCassette.interactions.filter (fun i => !i.discardOnSave)).length ∧
      c2.interactions.map Interaction.id = List.range c2.interactions.length :=
  save_load_round_trip exCassette "c" rfl (by decide)

/-- A fingerprint carried by no entry of the index has the empty bucket. -/
theorem bucketOf_eq_nil (c : Cassette) (f : String)
    (h : ∀ p ∈ c.hashIndex, p.1 ≠ f) : c.bucketOf f = [] := by
  unfold Cassette.bucketOf lookupIdx
  have : c.hashIndex.find? (fun p => p.1 == f) = none := by
    rw [List.find?_eq_none]
    intro p hp
    simp [beq_iff_eq]
    exact h p hp
  rw [this]
  rfl

/-- A fingerprint carried by no interaction has no positions. -/
theorem positionsWithHash_eq_nil (c : Cassette) (f : String)
    (h : ∀ i, i < c.interactions.length → (c.interactions.getD i default).hash ≠ f) :
    c.positionsWithHash f = [] := by
  unfold Cassette.positionsWithHash
  rw [List.filter_eq_nil_iff]
  intro i hi
  simp only [beq_iff_eq]
  intro hcontra
  exact h i (List.mem_range.mp hi) hcontra

/-- C2 (code bug): the index invariant — every bucket is exactly the
ascending position list of its fingerprint — holds for a cassette built by
two `AddInteraction` calls (one interaction flagged discard-on-save), but
`Save` breaks it: the discard filter renumbers and shrinks the slice while
leaving `hashIndex` untouched, so the surviving interaction's bucket still
points at its pre-save position.  The specification requires every slice
mutation, the discard-filter-on-save included, to be paired with an index
update; `Save` performs none. -/
theorem save_breaks_index_invariant :
    Cassette.indexInvariant exCassette ∧
    ¬ Cassette.indexInvariant (Cassette.save exCassette) := by
  constructor
  · intro f
    by_cases ha : f = "http://a/"
    · subst ha; decide
    · by_cases hb : f = "http://b/"
      · subst hb; decide
      · have hkeys : ∀ p ∈ exCassette.hashIndex, p.1 ≠ f := by
          intro p hp
          have hidx : exCassette.hashIndex = [("http://a/", [0]), ("http://b/", [1])] := by
            decide
          rw [hidx] at hp
          simp only [List.mem_cons, List.not_mem_nil, or_false] at hp
          rcases hp with rfl | rfl
          · exact fun he => ha he.symm
          · exact fun he => hb he.symm
        have hpos : ∀ i, i < exCassette.interactions.length →
            (exCassette.interactions.getD i default).hash ≠ f := by
          intro i hi
          have hlen2 : exCassette.interactions.length = 2 := by decide
          rw [hlen2] at hi
          interval_cases i
          · have h0 : (exCassette.interactions.getD 0 default).hash = "http://a/" := by
              decide
            rw [h0]
            exact fun he => ha he.symm
          · have h1 : (exCassette.interactions.getD 1 default).hash = "http://b/" := by
              decide
            rw [h1]
            exact fun he => hb he.symm
        rw [bucketOf_eq_nil exCassette f hkeys,
          positionsWithHash_eq_nil exCassette f hpos]
  · intro hinv
    have h1 := hinv "http://b/"
    have h2 : ¬ ((Cassette.save exCassette).bucketOf "http://b/" =
        (Cassette.save exCassette).positionsWithHash "http://b/") := by decide
    exact h2 h1

/-- C3 (code bug): hashing a form-encoded POST consumes the request body.
`defaultInteractionRequestHasher` reads and restores the body, but the
`ParseForm` it then runs for POST/PUT/PATCH reads the restored body (the
documented behavior of net/http's `ParseForm` for POST/PUT/PATCH) and never
restores it: on `exPost` (body `a=1`) the bytes readable after hashing drop
from `a=1` to the empty string, and hashing the request a second time
digests an empty body, producing a different digest — against the claim
that fingerprinting is repeatable and leaves the body bytes readable. -/
theorem hasher_consumes_form_post_body :
    exPost.body.readable = "a=1" ∧
    ∃ d1 r1, defaultInteractionRequestHasher exPost [] = .ok (d1, r1) ∧
      r1.body.readable = "" ∧
      ∃ d2 r2, defaultInteractionRequestHasher r1 [] = .ok (d2, r2) ∧ d1 ≠ d2 := by
  refine ⟨rfl,
    "POST::x::http://x/::HTTP/1.1::1::1::Content-Type:application/x-www-form-urlencoded::a=1::3::::::::",
    { exPost with body := Body.stream ""
                  postForm := some [("a", ["1"])]
                  form := some [("a", ["1"])] },
    by rfl, rfl,
    "POST::x::http://x/::HTTP/1.1::1::1::Content-Type:application/x-www-form-urlencoded::::3::::::::",
    { exPost with body := Body.stream ""
                  postForm := some [("a", ["1"])]
                  form := some [("a", ["1"])] },
    by rfl, by decide⟩

end GoVcr
